import Mathlib

/-!
Verification of the tmux-watch subscription/stability core.

This file shallowly embeds the parts of the repository needed by the
claims: the text helpers in `src/text-utils.ts`, the configuration
resolvers, the stability-detection step of `pollWatch`, persisted-state
loading, and notify-target resolution from `src/src/manager.ts`.

Modelling conventions:
* JavaScript strings are modelled as `List Char` where character-level
  manipulation matters, and as `String` elsewhere.
* JavaScript numbers are modelled as `ℚ` (every value passing the
  `typeof x === "number" && Number.isFinite(x)` guards in the source is a
  finite double; `NaN`/`Infinity` fall into the `undefined` branch of
  those guards and are modelled as `none`).
* `Math.trunc` is truncation toward zero, `Math.ceil` is `Int.ceil`.
* Fallible operations return `Option`.
-/

/-- Character class used by JavaScript `trim` / `trimStart` / `trimEnd`:
WhiteSpace plus LineTerminator code points. -/
def isJsWhitespace (c : Char) : Bool :=
  c == ' ' || c == '\t' || c == '\n' || c.val == 0x0B || c.val == 0x0C ||
  c == '\r' || c.val == 0xA0 || c.val == 0x1680 ||
  (0x2000 ≤ c.val && c.val ≤ 0x200A) ||
  c.val == 0x2028 || c.val == 0x2029 || c.val == 0x202F ||
  c.val == 0x205F || c.val == 0x3000 || c.val == 0xFEFF

/-- JavaScript `String.prototype.trimStart` on a character list. -/
def trimStartList (l : List Char) : List Char :=
  l.dropWhile isJsWhitespace

/-- JavaScript `String.prototype.trimEnd` on a character list. -/
def trimEndList (l : List Char) : List Char :=
  (l.reverse.dropWhile isJsWhitespace).reverse

/-- JavaScript `String.prototype.trim` (both ends). -/
def jsTrimList (l : List Char) : List Char :=
  trimEndList (trimStartList l)

/-- JavaScript `trim` lifted to `String`. -/
def jsTrim (s : String) : String :=
  ⟨jsTrimList s.data⟩

/-- JavaScript `toLowerCase`, modelled character-wise with the ASCII
`Char.toLower` (the channels and keys compared in the source are ASCII). -/
def jsToLower (s : String) : String :=
  ⟨s.data.map Char.toLower⟩

/-- JavaScript `text.slice(-maxChars)`: the trailing `maxChars` characters;
`slice(-0)` is `slice(0)`, the whole string. -/
def jsSliceFromEnd (l : List Char) (maxChars : Nat) : List Char :=
  if maxChars = 0 then l else l.drop (l.length - maxChars)

/-- Truncation marker prefixed by `truncateOutput` in `text-utils.ts`. -/
def truncMarker : List Char := "...[truncated]\n".data

/-- Embedding of `truncateOutput` from `src/text-utils.ts`:
empty text is returned as-is; text that fits is returned unchanged;
otherwise the trailing `maxChars` characters are kept, the slice is
advanced past its first newline when that newline sits at a positive
index before the last position (`firstNewline > 0 && firstNewline <
tail.length - 1`), leading whitespace is stripped (`trimStart`), and the
marker is prefixed. -/
def truncateOutput (text : List Char) (maxChars : Nat) : List Char × Bool :=
  if text = [] then ([], false)
  else if text.length ≤ maxChars then (text, false)
  else
    let tail := jsSliceFromEnd text maxChars
    let tail2 :=
      match tail.findIdx? (· == '\n') with
      | some i => if 0 < i ∧ i < tail.length - 1 then tail.drop (i + 1) else tail
      | none => tail
    let tail3 := trimStartList tail2
    (truncMarker ++ tail3, true)

/-- Truncation exactly as the claim words it (C9): text that fits is
returned unchanged; otherwise only the trailing `maxChars` characters are
kept, the slice is advanced past its first newline whenever one exists
before its end, and the marker is prefixed.  (No leading-whitespace
stripping, no positive-index restriction on the newline.) -/
def truncateOutputClaimed (text : List Char) (maxChars : Nat) : List Char × Bool :=
  if text.length ≤ maxChars then (text, false)
  else
    let tail := jsSliceFromEnd text maxChars
    let tail2 :=
      match tail.findIdx? (· == '\n') with
      | some i => if i < tail.length - 1 then tail.drop (i + 1) else tail
      | none => tail
    (truncMarker ++ tail2, true)

/-- Truncation as the amended claim words it: text that fits is returned
unchanged with the flag false; otherwise the trailing `maxChars`
characters are kept, the slice is advanced past its first newline only
when that newline sits at a positive index strictly before the last
position, leading whitespace of the kept slice is then stripped, and the
marker is prefixed with the flag set. -/
def truncateOutputAmended (text : List Char) (maxChars : Nat) : List Char × Bool :=
  if text.length ≤ maxChars then (text, false)
  else
    let tail := jsSliceFromEnd text maxChars
    let kept :=
      match tail.findIdx? (· == '\n') with
      | some i =>
          if 0 < i ∧ i < tail.length - 1 then trimStartList (tail.drop (i + 1))
          else trimStartList tail
      | none => trimStartList tail
    (truncMarker ++ kept, true)

/-- Global `/\r\n/g → "\n"` replacement from `captureOutput`
(`output.replace(/\r\n/g, "\n")`). -/
def crlfToLf : List Char → List Char
  | [] => []
  | '\r' :: '\n' :: rest => '\n' :: crlfToLf rest
  | c :: rest => c :: crlfToLf rest

/-- Line terminators that JavaScript `.` (without the `s` flag) never
matches. -/
def isLineTerm (c : Char) : Bool :=
  c == '\n' || c == '\r' || c.val == 0x2028 || c.val == 0x2029

/-- Scan for the earliest `ESC \`-terminator reachable without crossing a
line terminator (the lazy `.*?\u001b\\` part of the OSC8 regex in
`stripAnsi`); returns the remainder after the terminator. -/
def findOsc8End : List Char → Option (List Char)
  | '\x1b' :: '\\' :: rest => some rest
  | c :: rest => if isLineTerm c then none else findOsc8End rest
  | [] => none

/-- Fuelled scanner for the OSC8 hyperlink-escape removal
(`/\u001b]8;;.*?\u001b\\|\u001b]8;;\u001b\\/g` replaced by the empty
string; the second alternative is the lazy star matching zero characters).
Fuel at least the list length makes the scan total. -/
def removeOsc8Fuel : Nat → List Char → List Char
  | 0, l => l
  | _ + 1, [] => []
  | fuel + 1, '\x1b' :: ']' :: '8' :: ';' :: ';' :: rest =>
      match findOsc8End rest with
      | some after => removeOsc8Fuel fuel after
      | none => '\x1b' :: removeOsc8Fuel fuel (']' :: '8' :: ';' :: ';' :: rest)
  | fuel + 1, c :: rest => c :: removeOsc8Fuel fuel rest

/-- OSC8 removal with enough fuel for the whole input. -/
def removeOsc8 (l : List Char) : List Char :=
  removeOsc8Fuel l.length l

/-- Consume `[0-9;]*` and then require `m` (the body of the SGR regex
`/\u001b\[[0-9;]*m/`); returns the remainder after `m`. -/
def sgrBody : List Char → Option (List Char)
  | 'm' :: rest => some rest
  | c :: rest => if c == ';' || ('0' ≤ c && c ≤ '9') then sgrBody rest else none
  | [] => none

/-- Fuelled scanner removing SGR colour/style escapes
(`/\u001b\[[0-9;]*m/g` replaced by the empty string). -/
def removeSgrFuel : Nat → List Char → List Char
  | 0, l => l
  | _ + 1, [] => []
  | fuel + 1, '\x1b' :: '[' :: rest =>
      match sgrBody rest with
      | some after => removeSgrFuel fuel after
      | none => '\x1b' :: removeSgrFuel fuel ('[' :: rest)
  | fuel + 1, c :: rest => c :: removeSgrFuel fuel rest

/-- SGR removal with enough fuel for the whole input. -/
def removeSgr (l : List Char) : List Char :=
  removeSgrFuel l.length l

/-- Embedding of `stripAnsi` from `src/text-utils.ts`: first the OSC8
replacement, then the SGR replacement
(`input.replace(osc8, "").replace(sgr, "")`). -/
def stripAnsiChars (l : List Char) : List Char :=
  removeSgr (removeOsc8 l)

/-- Normalisation applied by `captureOutput` in `src/src/manager.ts` to a
successful capture before hashing: CRLF sequences become LF, trailing
whitespace is trimmed, and ANSI escapes are stripped when the resolved
`stripAnsi` setting is on. -/
def captureNormalize (stripEnabled : Bool) (raw : List Char) : List Char :=
  let out := trimEndList (crlfToLf raw)
  if stripEnabled then stripAnsiChars out else out

/-- Two raw capture outputs differ only in CRLF-versus-LF line endings or
trailing whitespace: rewriting CRLF to LF and trimming trailing
whitespace makes them identical. -/
def crlfTrailingEquiv (a b : List Char) : Prop :=
  trimEndList (crlfToLf a) = trimEndList (crlfToLf b)

/-- JavaScript `Math.trunc`: truncation toward zero. -/
def jsTrunc (q : ℚ) : ℤ :=
  if q < 0 then ⌈q⌉ else ⌊q⌋

/-- `DEFAULT_CAPTURE_INTERVAL_SECONDS` from `src/config.ts`. -/
def DEFAULT_CAPTURE_INTERVAL_SECONDS : ℚ := 10

/-- `DEFAULT_STABLE_COUNT` from `src/config.ts`. -/
def DEFAULT_STABLE_COUNT : ℤ := 6

/-- Notify mode (`"last" | "targets" | "targets+last"`). -/
inductive NotifyModeT
  | last
  | targets
  | targetsLast
deriving DecidableEq

/-- Config-shaped notify target (`NotifyTarget` in `src/config.ts`):
all fields strings, optional ones possibly absent. -/
structure NotifyTargetC where
  channel : String
  target : String
  accountId : Option String := none
  threadId : Option String := none
  label : Option String := none
deriving DecidableEq

/-- The slice of `TmuxWatchConfig` (`src/config.ts`) consumed by the
functions under verification.  Optional numeric fields hold `none` when
the raw config value was absent or failed the finite-number guard. -/
structure TmuxWatchConfigM where
  captureIntervalSeconds : Option ℚ := none
  pollIntervalMs : Option ℚ := none
  stableCount : Option ℚ := none
  stableSeconds : Option ℚ := none
  captureLines : ℚ := 50
  stripAnsi : Bool := true
  maxOutputChars : ℚ := 4000
  notifyMode : NotifyModeT := NotifyModeT.last
  notifyTargets : List NotifyTargetC := []
deriving DecidableEq

/-- The slice of `TmuxWatchSubscription` (`src/src/manager.ts`) consumed
by the functions under verification.  The nested `notify` override is
flattened into `notifyMode` / `notifyTargets` (`none` = field absent). -/
structure SubscriptionM where
  id : String := ""
  target : String := ""
  sessionKey : Option String := none
  captureIntervalSeconds : Option ℚ := none
  intervalMs : Option ℚ := none
  stableCount : Option ℚ := none
  stableSeconds : Option ℚ := none
  captureLines : Option ℚ := none
  stripAnsi : Option Bool := none
  enabled : Option Bool := none
  notifyMode : Option NotifyModeT := none
  notifyTargets : Option (List NotifyTargetC) := none
deriving DecidableEq

/-- Embedding of `resolveIntervalMs` (`src/src/manager.ts` lines
1051-1072): the seconds-based setting is taken from the subscription,
else from the global config; only when neither is set does the legacy
millisecond chain (subscription `intervalMs`, global `pollIntervalMs`,
default) apply.  Both branches floor the result at 200 ms. -/
def resolveIntervalMs (sub : SubscriptionM) (cfg : TmuxWatchConfigM) : ℤ :=
  let captureIntervalSeconds :=
    match sub.captureIntervalSeconds with
    | some v => some v
    | none => cfg.captureIntervalSeconds
  match captureIntervalSeconds with
  | some sec => max 200 (jsTrunc (sec * 1000))
  | none =>
      let raw :=
        match sub.intervalMs with
        | some v => v
        | none =>
            match cfg.pollIntervalMs with
            | some v => v
            | none => DEFAULT_CAPTURE_INTERVAL_SECONDS * 1000
      max 200 (jsTrunc raw)

/-- Interval resolution exactly as claim C2 words it: first defined value
in the order subscription seconds, subscription legacy milliseconds,
global seconds, global legacy milliseconds, built-in default; floored at
the safety bound. -/
def resolveIntervalMsClaimed (sub : SubscriptionM) (cfg : TmuxWatchConfigM) : ℤ :=
  let chain : List (Option ℚ) :=
    [sub.captureIntervalSeconds.map (fun s => s * 1000),
     sub.intervalMs,
     cfg.captureIntervalSeconds.map (fun s => s * 1000),
     cfg.pollIntervalMs]
  max 200 (jsTrunc ((chain.findSome? id).getD (DEFAULT_CAPTURE_INTERVAL_SECONDS * 1000)))

/-- Interval resolution as the amended claim words it: first defined value
in the order subscription seconds, global config seconds, subscription
legacy milliseconds, global legacy milliseconds, built-in default;
floored at the safety bound. -/
def resolveIntervalMsAmended (sub : SubscriptionM) (cfg : TmuxWatchConfigM) : ℤ :=
  let chain : List (Option ℚ) :=
    [sub.captureIntervalSeconds.map (fun s => s * 1000),
     cfg.captureIntervalSeconds.map (fun s => s * 1000),
     sub.intervalMs,
     cfg.pollIntervalMs]
  max 200 (jsTrunc ((chain.findSome? id).getD (DEFAULT_CAPTURE_INTERVAL_SECONDS * 1000)))

/-- Embedding of `resolveStableCount` (`src/src/manager.ts` lines
1074-1098): the explicit count is taken from the subscription, else from
the global config; only when neither is set does the seconds-based chain
(subscription `stableSeconds`, global `stableSeconds`) apply, converted
with the effective interval (ceiling, minimum 1); else the default. -/
def resolveStableCount (sub : SubscriptionM) (cfg : TmuxWatchConfigM) : ℤ :=
  let rawCount :=
    match sub.stableCount with
    | some v => some v
    | none => cfg.stableCount
  match rawCount with
  | some c => max 1 (jsTrunc c)
  | none =>
      let stableSeconds :=
        match sub.stableSeconds with
        | some v => some v
        | none => cfg.stableSeconds
      match stableSeconds with
      | some ss => max 1 ⌈ss * 1000 / ((resolveIntervalMs sub cfg : ℤ) : ℚ)⌉
      | none => DEFAULT_STABLE_COUNT

/-- Stable-count resolution exactly as claim C3 words it: subscription
explicit count, then subscription stable-seconds divided by the effective
interval (ceiling, minimum 1), then global count, then global
stable-seconds, then the built-in default. -/
def resolveStableCountClaimed (sub : SubscriptionM) (cfg : TmuxWatchConfigM) : ℤ :=
  match sub.stableCount with
  | some c => max 1 (jsTrunc c)
  | none =>
      match sub.stableSeconds with
      | some ss => max 1 ⌈ss * 1000 / ((resolveIntervalMs sub cfg : ℤ) : ℚ)⌉
      | none =>
          match cfg.stableCount with
          | some c => max 1 (jsTrunc c)
          | none =>
              match cfg.stableSeconds with
              | some ss => max 1 ⌈ss * 1000 / ((resolveIntervalMs sub cfg : ℤ) : ℚ)⌉
              | none => DEFAULT_STABLE_COUNT

/-- Stable-count resolution as the amended claim words it: explicit count
from the subscription else the global config; otherwise stable-seconds
from the subscription else the global config, divided by the effective
interval (ceiling, minimum 1); otherwise the built-in default. -/
def resolveStableCountAmended (sub : SubscriptionM) (cfg : TmuxWatchConfigM) : ℤ :=
  match [sub.stableCount, cfg.stableCount].findSome? id with
  | some c => max 1 (jsTrunc c)
  | none =>
      match [sub.stableSeconds, cfg.stableSeconds].findSome? id with
      | some ss => max 1 ⌈ss * 1000 / ((resolveIntervalMs sub cfg : ℤ) : ℚ)⌉
      | none => DEFAULT_STABLE_COUNT

/-- Embedding of `resolveStableDurationSeconds` (`src/src/manager.ts`):
stable count times effective interval, in seconds. -/
def resolveStableDurationSeconds (sub : SubscriptionM) (cfg : TmuxWatchConfigM) : ℚ :=
  ((resolveStableCount sub cfg : ℤ) : ℚ) * ((resolveIntervalMs sub cfg : ℤ) : ℚ) / 1000

/-- Ephemeral per-subscription runtime (`WatchRuntime` in
`src/src/manager.ts`).  Timestamps are abstract rationals. -/
structure WatchRuntimeM where
  running : Bool := false
  stableTicks : Nat := 0
  lastHash : Option String := none
  lastOutput : Option String := none
  lastCapturedAt : Option ℚ := none
  lastNotifiedHash : Option String := none
  lastNotifiedAt : Option ℚ := none
  lastError : Option String := none
deriving DecidableEq

/-- `createRuntime` from `src/src/manager.ts`: fresh runtime with
`running = false`, `stableTicks = 0` and everything else unset. -/
def createRuntime : WatchRuntimeM := {}

/-- The `lastHash && lastHash === hash` comparison in `pollWatch`:
truthiness of the stored hash (a non-empty string) plus strict
equality. -/
def sameStoredHash (lastHash : Option String) (h : String) : Bool :=
  match lastHash with
  | some prev => prev != "" && prev == h
  | none => false

/-- One body of `pollWatch` (`src/src/manager.ts` lines 479-533) for an
already-scheduled, managed and enabled entry, abstracted over the content
fingerprint `hash` (SHA-256 in the source) and the wall clock `now`.
`output = none` is a failed capture (`captureOutput` returned `null`);
`output = some out` is the normalised captured text.  Returns the updated
runtime and whether the stable-notification event fired
(`notifyStable` was invoked on this tick). -/
def pollStep (hash : String → String) (sub : SubscriptionM) (cfg : TmuxWatchConfigM)
    (now : ℚ) (s : WatchRuntimeM) (output : Option String) : WatchRuntimeM × Bool :=
  match output with
  | none => ({ s with stableTicks := 0, running := false }, false)
  | some out =>
      let s1 := { s with running := true, lastCapturedAt := some now, lastError := none }
      let h := hash out
      let s2 :=
        if sameStoredHash s1.lastHash h then
          { s1 with stableTicks := s1.stableTicks + 1 }
        else
          { s1 with lastHash := some h, lastOutput := some out,
                    stableTicks := 0, lastNotifiedHash := none }
      let required := resolveStableCount sub cfg
      if required ≤ (s2.stableTicks : ℤ) ∧ s2.lastNotifiedHash ≠ some h then
        ({ s2 with lastNotifiedHash := some h, lastNotifiedAt := some now,
                   running := false }, true)
      else
        ({ s2 with running := false }, false)

/-- A sequence of poll ticks: runs `pollStep` over the capture outcomes in
order (each tick re-uses the same abstract clock value, which no branch
of the detector reads) and counts how many stable events fired. -/
def pollRun (hash : String → String) (sub : SubscriptionM) (cfg : TmuxWatchConfigM)
    (now : ℚ) (s : WatchRuntimeM) : List (Option String) → WatchRuntimeM × Nat
  | [] => (s, 0)
  | o :: rest =>
      let r := pollStep hash sub cfg now s o
      let rec' := pollRun hash sub cfg now r.1 rest
      (rec'.1, (if r.2 then 1 else 0) + rec'.2)

/-- Thread identifiers in session entries (`string | number`).  Numeric
thread ids are modelled as integers (the source truncates them with
`Math.trunc` before use, and stringifies them with the standard decimal
rendering). -/
inductive ThreadVal
  | str (v : String)
  | num (v : ℤ)
deriving DecidableEq

/-- `deliveryContext` of a session entry (`SessionEntryLike`); the `to`
field is named `toAddr` because `to` is reserved in Lean. -/
structure DeliveryContextM where
  channel : Option String := none
  toAddr : Option String := none
  accountId : Option String := none
  threadId : Option ThreadVal := none
deriving DecidableEq

/-- Session store entry (`SessionEntryLike` in `src/src/manager.ts`);
`origin?.threadId` is flattened into `originThreadId`. -/
structure SessionEntryM where
  deliveryContext : Option DeliveryContextM := none
  updatedAt : Option ℚ := none
  lastChannel : Option String := none
  lastTo : Option String := none
  lastAccountId : Option String := none
  lastThreadId : Option ThreadVal := none
  channel : Option String := none
  originThreadId : Option ThreadVal := none
deriving DecidableEq

/-- `TargetSnapshot` from `src/src/manager.ts`. -/
structure TargetSnapshotM where
  channel : String
  target : String
  accountId : Option String := none
  threadId : Option ThreadVal := none
deriving DecidableEq

/-- Source tag of a resolved target (`"targets" | "last" | "last-fallback"`). -/
inductive TargetSource
  | targets
  | last
  | lastFallback
deriving DecidableEq

/-- `ResolvedTarget` from `src/src/manager.ts`. -/
structure ResolvedTargetM where
  channel : String
  target : String
  accountId : Option String := none
  threadId : Option ThreadVal := none
  label : Option String := none
  source : TargetSource
deriving DecidableEq

/-- Embedding of `parseThreadId`: finite numbers are truncated (identity
on the integral values modelled here); strings are trimmed, empty becomes
absent, all-digit strings are parsed as decimal integers, anything else
stays a string. -/
def parseThreadId (v : Option ThreadVal) : Option ThreadVal :=
  match v with
  | some (ThreadVal.num i) => some (ThreadVal.num i)
  | some (ThreadVal.str s) =>
      let t := jsTrim s
      if t = "" then none
      else if t.data.all (fun c => '0' ≤ c && c ≤ '9') then
        some (ThreadVal.num ((t.toNat?).getD 0 : ℤ))
      else some (ThreadVal.str t)
  | none => none

/-- Stringification used when a thread id is joined into a pipe key
(`threadId ?? ""` under JavaScript string coercion). -/
def threadToStr (v : Option ThreadVal) : String :=
  match v with
  | none => ""
  | some (ThreadVal.str s) => s
  | some (ThreadVal.num i) => toString i

/-- `INTERNAL_LAST_CHANNELS` membership test (`isInternalLastChannel` in
`src/src/manager.ts`): falsy channel is external; otherwise membership of
the trimmed, lower-cased channel in `{"webchat", "tui"}`.  (`toLowerCase`
is modelled with the ASCII `String.toLower`.) -/
def isInternalLastChannel (channel : Option String) : Bool :=
  match channel with
  | none => false
  | some ch =>
      if ch = "" then false
      else
        let l := jsToLower (jsTrim ch)
        l == "webchat" || l == "tui"

/-- Embedding of `extractTargetSnapshot` (`src/src/manager.ts` lines
1275-1308): channel from `deliveryContext.channel`, `lastChannel` or
`channel` (first string present, trimmed); target from
`deliveryContext.to` or `lastTo`; both must be non-empty.  Account id
from `deliveryContext.accountId` or `lastAccountId` (trimmed, empty
dropped); thread id from `deliveryContext.threadId`, `lastThreadId` or
`origin?.threadId`. -/
def extractTargetSnapshot (entry : SessionEntryM) : Option TargetSnapshotM :=
  let delivery := entry.deliveryContext.getD {}
  let channel :=
    match delivery.channel with
    | some c => some (jsTrim c)
    | none =>
        match entry.lastChannel with
        | some c => some (jsTrim c)
        | none =>
            match entry.channel with
            | some c => some (jsTrim c)
            | none => none
  let target :=
    match delivery.toAddr with
    | some t => some (jsTrim t)
    | none =>
        match entry.lastTo with
        | some t => some (jsTrim t)
        | none => none
  match channel, target with
  | some ch, some tg =>
      if ch = "" ∨ tg = "" then none
      else
        let accountRaw :=
          match delivery.accountId with
          | some a => some (jsTrim a)
          | none =>
              match entry.lastAccountId with
              | some a => some (jsTrim a)
              | none => none
        let accountId :=
          match accountRaw with
          | some a => if a = "" then none else some a
          | none => none
        let threadId :=
          match delivery.threadId with
          | some x => some x
          | none =>
              match entry.lastThreadId with
              | some x => some x
              | none => entry.originThreadId
        some { channel := ch, target := tg, accountId := accountId, threadId := threadId }
  | _, _ => none

/-- Embedding of `snapshotKey`: the four fields joined with `"|"`
(absent account/thread rendered as the empty string). -/
def snapshotKey (t : TargetSnapshotM) : String :=
  t.channel ++ "|" ++ t.target ++ "|" ++ t.accountId.getD "" ++ "|" ++ threadToStr t.threadId

/-- `typeof entry.updatedAt === "number" ? entry.updatedAt : 0`. -/
def entryUpdatedAt (e : SessionEntryM) : ℚ :=
  e.updatedAt.getD 0

/-- Fold inside `findLatestExternalTarget` (`src/src/manager.ts` lines
1316-1339): scan the store values, skipping entries without a snapshot,
internal-channel snapshots, and snapshots whose key equals the excluded
key; keep the entry with the strictly greatest `updatedAt` (first one
wins ties). -/
def findLatestExternalAux (excludeKey : String) :
    List SessionEntryM → Option (ℚ × TargetSnapshotM) → Option (ℚ × TargetSnapshotM)
  | [], best => best
  | e :: rest, best =>
      match extractTargetSnapshot e with
      | none => findLatestExternalAux excludeKey rest best
      | some snap =>
          if isInternalLastChannel (some snap.channel) then
            findLatestExternalAux excludeKey rest best
          else if snapshotKey snap == excludeKey then
            findLatestExternalAux excludeKey rest best
          else
            let u := entryUpdatedAt e
            match best with
            | none => findLatestExternalAux excludeKey rest (some (u, snap))
            | some (bu, bt) =>
                if bu < u then findLatestExternalAux excludeKey rest (some (u, snap))
                else findLatestExternalAux excludeKey rest (some (bu, bt))

/-- Embedding of `findLatestExternalTarget`: the fold over the store
values with an initially empty best, projecting away the timestamp. -/
def findLatestExternalTarget (entries : List SessionEntryM) (exclude : TargetSnapshotM) :
    Option TargetSnapshotM :=
  (findLatestExternalAux (snapshotKey exclude) entries none).map (fun p => p.2)

/-- Embedding of `toResolvedTarget`. -/
def toResolvedTarget (snap : TargetSnapshotM) (source : TargetSource) : ResolvedTargetM :=
  { channel := snap.channel, target := snap.target, accountId := snap.accountId,
    threadId := parseThreadId snap.threadId, label := none, source := source }

/-- A session store: a JavaScript object modelled as an ordered
association list with unique keys (`Object.values` iterates it in
order). -/
def SessionStore := List (String × SessionEntryM)

/-- `params.store[key] ?? params.store[key.toLowerCase()]`. -/
def storeLookup (store : SessionStore) (key : String) : Option SessionEntryM :=
  match (store.find? (fun p => p.1 == key)).map (fun p => p.2) with
  | some e => some e
  | none => (store.find? (fun p => p.1 == jsToLower key)).map (fun p => p.2)

/-- The store values in iteration order. -/
def storeValues (store : SessionStore) : List SessionEntryM :=
  store.map (fun p => p.2)

/-- Embedding of `resolveLastTargetsFromStore` (`src/src/manager.ts`
lines 1355-1378). -/
def resolveLastTargetsFromStore (store : SessionStore) (sessionKey : String) :
    List ResolvedTargetM :=
  match storeLookup store sessionKey with
  | none => []
  | some entry =>
      match extractTargetSnapshot entry with
      | none => []
      | some primary =>
          if isInternalLastChannel (some primary.channel) = false then
            [toResolvedTarget primary TargetSource.last]
          else
            match findLatestExternalTarget (storeValues store) primary with
            | some fallback => [toResolvedTarget fallback TargetSource.lastFallback]
            | none => [toResolvedTarget primary TargetSource.last]

/-- Embedding of `resolveNotifyMode`: the subscription override when it
is one of the three valid modes (guaranteed by the typed model), else the
global mode. -/
def resolveNotifyMode (sub : SubscriptionM) (cfg : TmuxWatchConfigM) : NotifyModeT :=
  match sub.notifyMode with
  | some m => m
  | none => cfg.notifyMode

/-- Embedding of `sanitizeTargets`: trim channel and address, drop
entries where either is empty, trim the optional fields. -/
def sanitizeTargets (targets : List NotifyTargetC) : List NotifyTargetC :=
  targets.filterMap (fun t =>
    let channel := jsTrim t.channel
    let toAddr := jsTrim t.target
    if channel = "" ∨ toAddr = "" then none
    else some { channel := channel, target := toAddr,
                accountId := t.accountId.map jsTrim,
                threadId := t.threadId.map jsTrim,
                label := t.label.map jsTrim })

/-- Embedding of `resolveNotifyTargetList`: the subscription's list when
present and non-empty, else the global list, both sanitised. -/
def resolveNotifyTargetList (sub : SubscriptionM) (cfg : TmuxWatchConfigM) :
    List NotifyTargetC :=
  match sub.notifyTargets with
  | some ts => if 0 < ts.length then sanitizeTargets ts else sanitizeTargets cfg.notifyTargets
  | none => sanitizeTargets cfg.notifyTargets

/-- Pipe-joined deduplication key used by `dedupeTargets`
(`[channel, target, accountId ?? "", threadId ?? ""].join("|")`). -/
def resolvedKey (t : ResolvedTargetM) : String :=
  t.channel ++ "|" ++ t.target ++ "|" ++ t.accountId.getD "" ++ "|" ++ threadToStr t.threadId

/-- The seen-set loop of `dedupeTargets`. -/
def dedupeAux : List ResolvedTargetM → List String → List ResolvedTargetM
  | [], _ => []
  | t :: rest, seen =>
      if seen.contains (resolvedKey t) then dedupeAux rest seen
      else t :: dedupeAux rest (resolvedKey t :: seen)

/-- Embedding of `dedupeTargets` (`src/src/manager.ts` lines 1419-1436):
drops every target whose pipe-joined key was already seen, preserving
order otherwise. -/
def dedupeTargets (targets : List ResolvedTargetM) : List ResolvedTargetM :=
  dedupeAux targets []

/-- The explicit-target half of `resolveNotifyTargets`: the configured
list mapped to resolved targets with source `targets` and thread ids
parsed. -/
def explicitResolved (sub : SubscriptionM) (cfg : TmuxWatchConfigM) : List ResolvedTargetM :=
  (resolveNotifyTargetList sub cfg).map (fun t =>
    { channel := t.channel, target := t.target, accountId := t.accountId,
      threadId := parseThreadId (t.threadId.map ThreadVal.str),
      label := t.label, source := TargetSource.targets })

/-- Embedding of `resolveNotifyTargets` (`src/src/manager.ts` lines
915-958), abstracted over `lastTargets`, the value the asynchronous
`resolveLastTargets` lookup produced (`resolveLastTargetsFromStore`
applied to the session store, or `[]` when the store is unavailable):
explicit targets when the mode includes `targets`, then the last-known
targets when the mode includes `last`, then key-based deduplication. -/
def resolveNotifyTargets (sub : SubscriptionM) (cfg : TmuxWatchConfigM)
    (lastTargets : List ResolvedTargetM) : List ResolvedTargetM :=
  let mode := resolveNotifyMode sub cfg
  let includeTargets := mode = NotifyModeT.targets ∨ mode = NotifyModeT.targetsLast
  let includeLast := mode = NotifyModeT.last ∨ mode = NotifyModeT.targetsLast
  let explicitPart := if includeTargets then explicitResolved sub cfg else []
  let lastPart := if includeLast then lastTargets else []
  dedupeTargets (explicitPart ++ lastPart)

/-- The tuple claim C7 says deduplication keys on. -/
def resolvedTuple (t : ResolvedTargetM) : String × String × Option String × Option ThreadVal :=
  (t.channel, t.target, t.accountId, t.threadId)

/-- Deduplication exactly as claim C7 words it: keep the first occurrence
of each (channel, address, accountId, threadId) tuple. -/
def dedupeByTuple : List ResolvedTargetM →
    List (String × String × Option String × Option ThreadVal) → List ResolvedTargetM
  | [], _ => []
  | t :: rest, seen =>
      if seen.contains (resolvedTuple t) then dedupeByTuple rest seen
      else t :: dedupeByTuple rest (resolvedTuple t :: seen)

/-- Notify-target resolution exactly as claim C7 words it: the explicit
list before the last-known list, deduplicated by the field tuple. -/
def resolveNotifyTargetsClaimed (sub : SubscriptionM) (cfg : TmuxWatchConfigM)
    (lastTargets : List ResolvedTargetM) : List ResolvedTargetM :=
  let mode := resolveNotifyMode sub cfg
  let includeTargets := mode = NotifyModeT.targets ∨ mode = NotifyModeT.targetsLast
  let includeLast := mode = NotifyModeT.last ∨ mode = NotifyModeT.targetsLast
  let explicitPart := if includeTargets then explicitResolved sub cfg else []
  let lastPart := if includeLast then lastTargets else []
  dedupeByTuple (explicitPart ++ lastPart) []

/-- First-seen-key filter formulated over the output accumulated so far
(the amended-claim reading of order-preserving key deduplication). -/
def keepFirstByKey (targets : List ResolvedTargetM) : List ResolvedTargetM :=
  targets.foldl (fun acc t =>
    if acc.any (fun u => resolvedKey u == resolvedKey t) then acc else acc ++ [t]) []

/-- JSON values, as produced by `JSON.parse`. -/
inductive JVal
  | null
  | bool (b : Bool)
  | num (q : ℚ)
  | str (s : String)
  | arr (elems : List JVal)
  | obj (fields : List (String × JVal))

/-- JavaScript truthiness of a parsed JSON value. -/
def jsTruthy : JVal → Bool
  | JVal.null => false
  | JVal.bool b => b
  | JVal.num q => q ≠ 0
  | JVal.str s => s ≠ ""
  | JVal.arr _ => true
  | JVal.obj _ => true

/-- Property access `v[k]` on a parsed JSON value: `none` models
`undefined`.  `JSON.parse` keeps the last of duplicate keys. -/
def jsField : JVal → String → Option JVal
  | JVal.obj fields, k => ((fields.filter (fun p => p.1 == k)).getLast?).map (fun p => p.2)
  | _, _ => none

/-- `STATE_VERSION` from `src/src/manager.ts`. -/
def STATE_VERSION : ℚ := 1

/-- The loaded persisted state: the version tag and the raw subscription
records (validated later by `ensureLoaded`, not by `loadState`). -/
structure PersistedStateM where
  version : ℚ
  subscriptions : List JVal

/-- The empty, valid initial state `{version: STATE_VERSION, subscriptions: []}`. -/
def emptyPersistedState : PersistedStateM :=
  { version := STATE_VERSION, subscriptions := [] }

/-- Embedding of `loadState` (`src/src/manager.ts` lines 264-276).  The
input is the outcome of reading and parsing the state file: `none` when
the file is missing, unreadable or not valid JSON (the `catch` branch),
`some v` for the parsed value.  A falsy parse result, a `version` that is
not strictly equal to `STATE_VERSION`, or a non-array `subscriptions`
field all yield the empty state. -/
def loadState : Option JVal → PersistedStateM
  | none => emptyPersistedState
  | some v =>
      if jsTruthy v = false then emptyPersistedState
      else
        match jsField v "version", jsField v "subscriptions" with
        | some (JVal.num q), some (JVal.arr subs) =>
            if q = STATE_VERSION then { version := q, subscriptions := subs }
            else emptyPersistedState
        | _, _ => emptyPersistedState

/-- A minimal subscription with nothing configured. -/
def subDefault : SubscriptionM := { id := "sub-1", target := "session:0.0" }

/-- A global config with nothing numeric configured. -/
def cfgDefault : TmuxWatchConfigM := {}

/-- Subscription with only the legacy `intervalMs` set. -/
def subLegacyMs : SubscriptionM := { id := "sub-1", target := "session:0.0", intervalMs := some 5000 }

/-- Global config with only `captureIntervalSeconds` set. -/
def cfgSeconds : TmuxWatchConfigM := { captureIntervalSeconds := some 3 }

/-- Subscription with only the legacy `stableSeconds` set. -/
def subStableSeconds : SubscriptionM := { id := "sub-1", target := "session:0.0", stableSeconds := some 30 }

/-- Global config with only `stableCount` set. -/
def cfgStableCount : TmuxWatchConfigM := { stableCount := some 2 }

/-- C2, counterexample: with subscription `intervalMs = 5000` and global
`captureIntervalSeconds = 3`, the claimed order (subscription legacy
milliseconds before global seconds) gives 5000 ms, but
`resolveIntervalMs` gives 3000 ms — the global seconds setting wins over
the subscription's legacy milliseconds. -/
theorem claim2_counterexample :
    resolveIntervalMs subLegacyMs cfgSeconds = 3000 ∧
    resolveIntervalMsClaimed subLegacyMs cfgSeconds = 5000 ∧
    resolveIntervalMs subLegacyMs cfgSeconds ≠ resolveIntervalMsClaimed subLegacyMs cfgSeconds := by
  refine ⟨?_, ?_, ?_⟩ <;>
    simp [resolveIntervalMs, resolveIntervalMsClaimed, subLegacyMs, cfgSeconds, jsTrunc,
      List.findSome?] <;>
    norm_num

/-- C2 (amended): the resolved effective poll interval is the first
defined value in the order subscription `captureIntervalSeconds`, global
`captureIntervalSeconds`, subscription legacy `intervalMs`, global legacy
`pollIntervalMs`, built-in default — the seconds-based fields take
precedence over both legacy millisecond fields — and the resolved value
is never below the 200 ms safety floor. -/
theorem claim2_interval_fallback_chain :
    (∀ sub cfg, resolveIntervalMs sub cfg = resolveIntervalMsAmended sub cfg) ∧
    (∀ sub cfg, 200 ≤ resolveIntervalMs sub cfg) := by
  constructor
  · intro sub cfg
    unfold resolveIntervalMs resolveIntervalMsAmended
    cases h1 : sub.captureIntervalSeconds <;> cases h2 : cfg.captureIntervalSeconds <;>
      cases h3 : sub.intervalMs <;> cases h4 : cfg.pollIntervalMs <;>
        simp [List.findSome?]
  · intro sub cfg
    cases h1 : sub.captureIntervalSeconds <;> cases h2 : cfg.captureIntervalSeconds <;>
      simp [resolveIntervalMs, h1, h2, le_max_iff]

/-- C3, counterexample: with subscription `stableSeconds = 30` and global
`stableCount = 2`, the claimed order (subscription stable-seconds before
global count) gives `ceil(30s / 10s) = 3`, but `resolveStableCount`
gives 2 — the global explicit count wins over the subscription's
stable-seconds. -/
theorem claim3_counterexample :
    resolveStableCount subStableSeconds cfgStableCount = 2 ∧
    resolveStableCountClaimed subStableSeconds cfgStableCount = 3 ∧
    resolveStableCount subStableSeconds cfgStableCount ≠
      resolveStableCountClaimed subStableSeconds cfgStableCount := by
  refine ⟨?_, ?_, ?_⟩ <;>
    simp [resolveStableCount, resolveStableCountClaimed, resolveIntervalMs, subStableSeconds,
      cfgStableCount, jsTrunc, DEFAULT_CAPTURE_INTERVAL_SECONDS] <;>
    norm_num

/-- C3 (amended): the required stable count is resolved as the explicit
count from the subscription else the global config; only when neither
explicit count is set is a stable-seconds value (subscription first, then
global) divided by the effective interval (ceiling, minimum 1);
otherwise the built-in default applies.  The result is always at least
1. -/
theorem claim3_stable_count_fallback_chain :
    (∀ sub cfg, resolveStableCount sub cfg = resolveStableCountAmended sub cfg) ∧
    (∀ sub cfg, 1 ≤ resolveStableCount sub cfg) := by
  constructor
  · intro sub cfg
    unfold resolveStableCount resolveStableCountAmended
    cases h1 : sub.stableCount <;> cases h2 : cfg.stableCount <;>
      cases h3 : sub.stableSeconds <;> cases h4 : cfg.stableSeconds <;>
        simp [List.findSome?]
  · intro sub cfg
    cases h1 : sub.stableCount <;> cases h2 : cfg.stableCount <;>
      cases h3 : sub.stableSeconds <;> cases h4 : cfg.stableSeconds <;>
        simp [resolveStableCount, h1, h2, h3, h4, le_max_iff, DEFAULT_STABLE_COUNT]

/-- Dropping a while-matched front keeps a suffix. -/
theorem dropWhile_isSuffix (p : Char → Bool) (l : List Char) : l.dropWhile p <:+ l :=
  ⟨l.takeWhile p, List.takeWhile_append_dropWhile p l⟩

/-- The trailing slice kept by truncation is a suffix of the input. -/
theorem jsSliceFromEnd_isSuffix (l : List Char) (n : Nat) : jsSliceFromEnd l n <:+ l := by
  unfold jsSliceFromEnd
  split
  · exact List.suffix_refl l
  · exact List.drop_suffix _ l

/-- C9, counterexample: for the text `"x   abc"` with `maxChars = 6`, the
trailing slice `"   abc"` contains no newline, so the claim says it is
kept verbatim after the marker; `truncateOutput` additionally strips the
leading whitespace and returns `"...[truncated]\nabc"` instead of
`"...[truncated]\n   abc"`. -/
theorem claim9_counterexample :
    truncateOutput "x   abc".data 6 ≠ truncateOutputClaimed "x   abc".data 6 ∧
    (truncateOutput "x   abc".data 6).1 = "...[truncated]\nabc".data ∧
    (truncateOutputClaimed "x   abc".data 6).1 = "...[truncated]\n   abc".data := by
  refine ⟨by decide, by decide, by decide⟩

/-- C9 (amended): text no longer than the maximum is returned unchanged
with the truncated flag false; otherwise the trailing `maxChars`
characters are kept, the slice is advanced past its first newline only
when that newline sits at a positive index strictly before the slice's
last position, leading whitespace of the kept slice is then stripped, a
truncation marker is prefixed and the flag is set; the kept portion
after the marker is always a suffix of the original text. -/
theorem claim9_truncation :
    ∀ text maxChars, truncateOutput text maxChars = truncateOutputAmended text maxChars ∧
      ∃ s, s <:+ text ∧
        ((truncateOutput text maxChars).1 = s ∨
         (truncateOutput text maxChars).1 = truncMarker ++ s) := by
  intro text maxChars
  constructor
  · by_cases h0 : text = []
    · subst h0; simp [truncateOutput, truncateOutputAmended]
    · by_cases h1 : text.length ≤ maxChars
      · simp [truncateOutput, truncateOutputAmended, h0, h1]
      · simp only [truncateOutput, truncateOutputAmended, h0, h1, if_false, if_true]
        cases h2 : (jsSliceFromEnd text maxChars).findIdx? (· == '\n') with
        | none => simp [h2]
        | some i => simp [h2]; split_ifs <;> simp
  · by_cases h0 : text = []
    · subst h0
      exact ⟨[], List.suffix_refl [], Or.inl (by simp [truncateOutput])⟩
    · by_cases h1 : text.length ≤ maxChars
      · exact ⟨text, List.suffix_refl text, Or.inl (by simp [truncateOutput, h0, h1])⟩
      · simp only [truncateOutput, h0, h1, if_false, if_true]
        have htail : jsSliceFromEnd text maxChars <:+ text := jsSliceFromEnd_isSuffix text maxChars
        cases h2 : (jsSliceFromEnd text maxChars).findIdx? (· == '\n') with
        | none =>
            refine ⟨trimStartList (jsSliceFromEnd text maxChars), ?_, Or.inr (by simp [h2])⟩
            exact (dropWhile_isSuffix _ _).trans htail
        | some i =>
            by_cases h3 : 0 < i ∧ i < (jsSliceFromEnd text maxChars).length - 1
            · refine ⟨trimStartList ((jsSliceFromEnd text maxChars).drop (i + 1)), ?_,
                Or.inr (by simp [h2, h3])⟩
              exact (dropWhile_isSuffix _ _).trans ((List.drop_suffix _ _).trans htail)
            · refine ⟨trimStartList (jsSliceFromEnd text maxChars), ?_,
                Or.inr (by simp [h2, h3])⟩
              exact (dropWhile_isSuffix _ _).trans htail

/-- C8: loading persisted state is total and never fails: a missing or
unparseable file yields the empty valid state, and so does any parsed
value whose `version` is not strictly the current schema version or
whose `subscriptions` field is not an array; every possible outcome is
either the empty state or a state carrying the current version tag. -/
theorem claim8_load_state_never_raises :
    loadState none = emptyPersistedState ∧
    (∀ v, jsField v "version" ≠ some (JVal.num STATE_VERSION) →
      loadState (some v) = emptyPersistedState) ∧
    (∀ v, (∀ l, jsField v "subscriptions" ≠ some (JVal.arr l)) →
      loadState (some v) = emptyPersistedState) ∧
    (∀ c, loadState c = emptyPersistedState ∨
      ∃ subs, loadState c = { version := STATE_VERSION, subscriptions := subs }) := by
  refine ⟨rfl, ?_, ?_, ?_⟩
  · intro v h
    simp only [loadState]
    split
    · rfl
    · split
      · rename_i q subs hv hs
        split
        · rename_i hq
          exact absurd (hq ▸ hv) h
        · rfl
      · rfl
  · intro v h
    simp only [loadState]
    split
    · rfl
    · split
      · rename_i q subs hv hs
        exact absurd hs (h subs)
      · rfl
  · intro c
    cases c with
    | none => exact Or.inl rfl
    | some v =>
        simp only [loadState]
        split
        · exact Or.inl rfl
        · split
          · rename_i q subs hv hs
            split
            · rename_i hq
              exact Or.inr ⟨subs, by simp [hq]⟩
            · exact Or.inl rfl
          · exact Or.inl rfl

/-- C8, witness: a record with version 2 and a non-object file content
both load as the empty valid state. -/
theorem claim8_witness :
    loadState (some (JVal.obj [("version", JVal.num 2), ("subscriptions", JVal.arr [])])) =
      emptyPersistedState ∧
    loadState (some (JVal.str "not-a-state")) = emptyPersistedState :=
  ⟨claim8_load_state_never_raises.2.1 _ (by simp [jsField, STATE_VERSION]),
   claim8_load_state_never_raises.2.2.1 _ (fun l => by simp [jsField])⟩

/-- C10: a successful capture is normalised before fingerprinting — CRLF
becomes LF, trailing whitespace is trimmed, and ANSI escapes are
stripped exactly when the resolved `stripAnsi` setting is on — so any
two raw outputs that differ only in CRLF-versus-LF line endings or
trailing whitespace normalise identically and receive the same hash
under every fingerprint function (in particular SHA-256). -/
theorem claim10_capture_normalization :
    (∀ strip raw, captureNormalize strip raw =
       if strip then stripAnsiChars (trimEndList (crlfToLf raw))
       else trimEndList (crlfToLf raw)) ∧
    (∀ (hash : List Char → String) (strip : Bool) (a b : List Char), crlfTrailingEquiv a b →
       hash (captureNormalize strip a) = hash (captureNormalize strip b)) := by
  constructor
  · intro strip raw; rfl
  · intro hash strip a b h
    unfold crlfTrailingEquiv at h
    simp only [captureNormalize, h]

/-- C10, witness: `"a\r\nb  "` and `"a\nb"` differ only in a CRLF line
ending and trailing whitespace, and normalise to the same hash input. -/
theorem claim10_witness :
    crlfTrailingEquiv "a\r\nb  ".data "a\nb".data ∧
    String.mk (captureNormalize true "a\r\nb  ".data) =
      String.mk (captureNormalize true "a\nb".data) :=
  ⟨rfl, claim10_capture_normalization.2 String.mk true _ _ rfl⟩

/-- The resolved stable count is at least 1 in every branch. -/
theorem one_le_resolveStableCount (sub : SubscriptionM) (cfg : TmuxWatchConfigM) :
    1 ≤ resolveStableCount sub cfg := by
  cases h1 : sub.stableCount <;> cases h2 : cfg.stableCount <;>
    cases h3 : sub.stableSeconds <;> cases h4 : cfg.stableSeconds <;>
      simp [resolveStableCount, h1, h2, h3, h4, le_max_iff, DEFAULT_STABLE_COUNT]

/-- Unfolding of `pollStep` on a successful capture. -/
theorem pollStep_some_eq (hash : String → String) (sub : SubscriptionM) (cfg : TmuxWatchConfigM)
    (now : ℚ) (s : WatchRuntimeM) (t : String) :
    pollStep hash sub cfg now s (some t) =
      (fun s2 =>
        if resolveStableCount sub cfg ≤ (s2.stableTicks : ℤ) ∧ s2.lastNotifiedHash ≠ some (hash t)
        then ({ s2 with lastNotifiedHash := some (hash t), lastNotifiedAt := some now,
                        running := false }, true)
        else ({ s2 with running := false }, false))
      (if sameStoredHash s.lastHash (hash t) then
        { s with running := true, lastCapturedAt := some now, lastError := none,
                 stableTicks := s.stableTicks + 1 }
       else
        { s with running := true, lastCapturedAt := some now, lastError := none,
                 lastHash := some (hash t), lastOutput := some t,
                 stableTicks := 0, lastNotifiedHash := none }) := rfl

/-- A successful capture whose fingerprint does not match the stored
hash (or with no truthy stored hash) resets the detector: new hash and
output stored, `stableTicks = 0`, `lastNotifiedHash` cleared, no event
(the threshold is at least 1). -/
theorem pollStep_reset_eq (hash : String → String) (sub : SubscriptionM)
    (cfg : TmuxWatchConfigM) (now : ℚ) (s : WatchRuntimeM) (t : String)
    (h1 : sameStoredHash s.lastHash (hash t) = false) :
    pollStep hash sub cfg now s (some t) =
      ({ s with running := false, lastCapturedAt := some now, lastError := none,
                lastHash := some (hash t), lastOutput := some t,
                stableTicks := 0, lastNotifiedHash := none }, false) := by
  have hk := one_le_resolveStableCount sub cfg
  rw [pollStep_some_eq, if_neg (by simp [h1])]
  beta_reduce
  rw [if_neg]
  simp only [ne_eq, not_and]
  intro hle
  omega

/-- An identical capture after the episode was already notified only
increments `stableTicks`; no second event fires for the same hash. -/
theorem pollStep_notified_eq (hash : String → String) (sub : SubscriptionM)
    (cfg : TmuxWatchConfigM) (now : ℚ) (s : WatchRuntimeM) (t : String)
    (h1 : s.lastHash = some (hash t)) (h2 : hash t ≠ "")
    (h3 : s.lastNotifiedHash = some (hash t)) :
    pollStep hash sub cfg now s (some t) =
      ({ s with running := false, lastCapturedAt := some now, lastError := none,
                stableTicks := s.stableTicks + 1 }, false) := by
  rw [pollStep_some_eq, if_pos (by simp [sameStoredHash, h1, h2])]
  beta_reduce
  rw [if_neg]
  simp only [ne_eq, not_and, not_not]
  intro _
  simpa using h3

/-- An identical capture that reaches the threshold while notification
is armed fires the event and records `lastNotifiedHash` /
`lastNotifiedAt`. -/
theorem pollStep_armed_event_eq (hash : String → String) (sub : SubscriptionM)
    (cfg : TmuxWatchConfigM) (now : ℚ) (s : WatchRuntimeM) (t : String)
    (h1 : s.lastHash = some (hash t)) (h2 : hash t ≠ "")
    (h3 : s.lastNotifiedHash = none)
    (hk : resolveStableCount sub cfg ≤ (s.stableTicks : ℤ) + 1) :
    pollStep hash sub cfg now s (some t) =
      ({ s with running := false, lastCapturedAt := some now, lastError := none,
                stableTicks := s.stableTicks + 1,
                lastNotifiedHash := some (hash t), lastNotifiedAt := some now }, true) := by
  rw [pollStep_some_eq, if_pos (by simp [sameStoredHash, h1, h2])]
  beta_reduce
  rw [if_pos]
  constructor
  · push_cast
    omega
  · simp [h3]

/-- An identical capture below the threshold only increments
`stableTicks`. -/
theorem pollStep_armed_noevent_eq (hash : String → String) (sub : SubscriptionM)
    (cfg : TmuxWatchConfigM) (now : ℚ) (s : WatchRuntimeM) (t : String)
    (h1 : s.lastHash = some (hash t)) (h2 : hash t ≠ "")
    (hk : ¬ resolveStableCount sub cfg ≤ (s.stableTicks : ℤ) + 1) :
    pollStep hash sub cfg now s (some t) =
      ({ s with running := false, lastCapturedAt := some now, lastError := none,
                stableTicks := s.stableTicks + 1 }, false) := by
  rw [pollStep_some_eq, if_pos (by simp [sameStoredHash, h1, h2])]
  beta_reduce
  rw [if_neg]
  simp only [ne_eq, not_and, not_not]
  intro hle
  push_cast at hle
  omega

/-- The stored-hash comparison succeeds exactly for a non-empty stored
hash equal to the new fingerprint. -/
theorem sameStoredHash_true_iff (o : Option String) (h : String) :
    sameStoredHash o h = true ↔ o = some h ∧ h ≠ "" := by
  cases o with
  | none => simp [sameStoredHash]
  | some prev =>
      simp only [sameStoredHash, Bool.and_eq_true, bne_iff_ne, beq_iff_eq, Option.some_inj]
      constructor
      · rintro ⟨hne, heq⟩
        subst heq
        exact ⟨rfl, hne⟩
      · rintro ⟨heq, hne⟩
        subst heq
        exact ⟨hne, rfl⟩

/-- Unfolding of `pollRun` on one tick. -/
theorem pollRun_cons (hash : String → String) (sub : SubscriptionM) (cfg : TmuxWatchConfigM)
    (now : ℚ) (s : WatchRuntimeM) (o : Option String) (rest : List (Option String)) :
    pollRun hash sub cfg now s (o :: rest) =
      ((pollRun hash sub cfg now (pollStep hash sub cfg now s o).1 rest).1,
       (if (pollStep hash sub cfg now s o).2 then 1 else 0) +
         (pollRun hash sub cfg now (pollStep hash sub cfg now s o).1 rest).2) := rfl

/-- Once `lastNotifiedHash` equals the current content hash, any number
of further identical captures fires no event. -/
theorem pollRun_notified_zero (hash : String → String) (sub : SubscriptionM)
    (cfg : TmuxWatchConfigM) (now : ℚ) (t : String) :
    ∀ (n : Nat) (s : WatchRuntimeM), s.lastHash = some (hash t) → hash t ≠ "" →
      s.lastNotifiedHash = some (hash t) →
      (pollRun hash sub cfg now s (List.replicate n (some t))).2 = 0 := by
  intro n
  induction n with
  | zero => intro s _ _ _; rfl
  | succ m ih =>
      intro s h1 h2 h3
      rw [List.replicate_succ, pollRun_cons, pollStep_notified_eq hash sub cfg now s t h1 h2 h3]
      simp only [if_false, Bool.false_eq_true, reduceIte]
      rw [ih _ (by simpa using h1) h2 (by simpa using h3)]

/-- From a state whose stored hash matches the captured text and whose
notification is armed, a run of `n` identical captures fires exactly one
event when the tick counter can reach the threshold, and none
otherwise. -/
theorem pollRun_armed_count (hash : String → String) (sub : SubscriptionM)
    (cfg : TmuxWatchConfigM) (now : ℚ) (t : String) :
    ∀ (n : Nat) (s : WatchRuntimeM), s.lastHash = some (hash t) → hash t ≠ "" →
      s.lastNotifiedHash = none →
      (pollRun hash sub cfg now s (List.replicate n (some t))).2 =
        if resolveStableCount sub cfg ≤ (s.stableTicks : ℤ) + n ∧ 1 ≤ n then 1 else 0 := by
  intro n
  induction n with
  | zero =>
      intro s _ _ _
      simp [pollRun]
  | succ m ih =>
      intro s h1 h2 h3
      rw [List.replicate_succ, pollRun_cons]
      by_cases hk : resolveStableCount sub cfg ≤ (s.stableTicks : ℤ) + 1
      · rw [pollStep_armed_event_eq hash sub cfg now s t h1 h2 h3 hk]
        simp only [if_true]
        rw [pollRun_notified_zero hash sub cfg now t m _ (by simpa using h1) h2 (by simp)]
        rw [if_pos]
        constructor
        · push_cast
          omega
        · omega
      · rw [pollStep_armed_noevent_eq hash sub cfg now s t h1 h2 hk]
        simp only [if_false, Bool.false_eq_true, reduceIte]
        rw [ih _ (by simpa using h1) h2 (by simpa using h3)]
        have hticks : ({ s with running := false, lastCapturedAt := some now, lastError := none, stableTicks := s.stableTicks + 1 } : WatchRuntimeM).stableTicks = s.stableTicks + 1 := rfl
        rw [hticks]
        split_ifs with ha hb hc
        · rfl
        · exfalso
          apply hb
          push_cast at ha ⊢
          omega
        · exfalso
          apply ha
          push_cast at hc hk ⊢
          omega
        · rfl

/-- From any state whose stored hash does not match the captured text
(in particular a fresh runtime), a run of `n` identical captures fires
exactly one event iff `n` is at least threshold + 1. -/
theorem pollRun_start_count (hash : String → String) (sub : SubscriptionM)
    (cfg : TmuxWatchConfigM) (now : ℚ) (t : String) (h2 : hash t ≠ "") :
    ∀ (n : Nat) (s : WatchRuntimeM), sameStoredHash s.lastHash (hash t) = false →
      (pollRun hash sub cfg now s (List.replicate n (some t))).2 =
        if resolveStableCount sub cfg + 1 ≤ (n : ℤ) then 1 else 0 := by
  have hk := one_le_resolveStableCount sub cfg
  intro n s hsame
  cases n with
  | zero =>
      rw [if_neg (by push_cast; omega)]
      rfl
  | succ m =>
      rw [List.replicate_succ, pollRun_cons, pollStep_reset_eq hash sub cfg now s t hsame]
      simp only [if_false, Bool.false_eq_true, reduceIte]
      rw [pollRun_armed_count hash sub cfg now t m _ (by simp) h2 (by simp)]
      have hticks : ({ s with running := false, lastCapturedAt := some now, lastError := none, lastHash := some (hash t), lastOutput := some t, stableTicks := 0, lastNotifiedHash := none } : WatchRuntimeM).stableTicks = 0 := rfl
      rw [hticks]
      split_ifs with ha hb hc
      · rfl
      · exfalso
        apply hb
        push_cast at ha ⊢
        omega
      · exfalso
        apply ha
        push_cast at hc ⊢
        omega
      · rfl

/-- A failed capture resets `stableTicks` and nothing else. -/
theorem pollStep_fail_eq (hash : String → String) (sub : SubscriptionM) (cfg : TmuxWatchConfigM)
    (now : ℚ) (s : WatchRuntimeM) :
    pollStep hash sub cfg now s none = ({ s with stableTicks := 0, running := false }, false) := rfl

/-- No event can fire while `stableTicks` plus the number of remaining
ticks stays below the threshold, whatever the captures return. -/
theorem pollRun_short_no_event (hash : String → String) (sub : SubscriptionM)
    (cfg : TmuxWatchConfigM) (now : ℚ) :
    ∀ (outs : List (Option String)) (s : WatchRuntimeM),
      (s.stableTicks : ℤ) + outs.length < resolveStableCount sub cfg →
      (pollRun hash sub cfg now s outs).2 = 0 := by
  have hk := one_le_resolveStableCount sub cfg
  intro outs
  induction outs with
  | nil => intro s _; rfl
  | cons o rest ih =>
      intro s hlen
      rw [pollRun_cons]
      cases o with
      | none =>
          rw [pollStep_fail_eq]
          simp only [if_false, Bool.false_eq_true, reduceIte]
          rw [ih _ (by simp only [List.length_cons] at hlen; push_cast at hlen ⊢; omega)]
      | some t =>
          cases hsame : sameStoredHash s.lastHash (hash t) with
          | false =>
              rw [pollStep_reset_eq hash sub cfg now s t hsame]
              simp only [if_false, Bool.false_eq_true, reduceIte]
              rw [ih _ (by simp only [List.length_cons] at hlen; push_cast at hlen ⊢; omega)]
          | true =>
              obtain ⟨h1, h2⟩ := (sameStoredHash_true_iff s.lastHash (hash t)).1 hsame
              have hnk : ¬ resolveStableCount sub cfg ≤ (s.stableTicks : ℤ) + 1 := by
                simp only [List.length_cons] at hlen
                push_cast at hlen ⊢
                omega
              rw [pollStep_armed_noevent_eq hash sub cfg now s t h1 h2 hnk]
              simp only [if_false, Bool.false_eq_true, reduceIte]
              rw [ih _ (by simp only [List.length_cons] at hlen; push_cast at hlen ⊢; omega)]

/-- C1 (amended): starting from a fresh runtime, a run of `n` identical
successful captures fires exactly one stable event when
`n ≥ threshold + 1` and none otherwise — the first capture of a run
stores the hash with `stableTicks = 0`, so the threshold is reached on
the (threshold+1)-th identical poll, every further identical poll fires
nothing, and in particular 7 identical polls at threshold 6 fire exactly
one event while an 8th fires no additional one. -/
theorem claim1_stable_run_single_event :
    ∀ (hash : String → String) (sub : SubscriptionM) (cfg : TmuxWatchConfigM) (now : ℚ)
      (t : String) (n : Nat), hash t ≠ "" →
      (pollRun hash sub cfg now createRuntime (List.replicate n (some t))).2 =
        if resolveStableCount sub cfg + 1 ≤ (n : ℤ) then 1 else 0 := by
  intro hash sub cfg now t n h2
  exact pollRun_start_count hash sub cfg now t h2 n createRuntime rfl

/-- C1, counterexample: with the default threshold 6, six identical
polls from a fresh runtime fire zero notifications, not the one the
claim requires (`stableTicks` only reaches 5). -/
theorem claim1_counterexample :
    resolveStableCount subDefault cfgDefault = 6 ∧
    (pollRun (fun s => s) subDefault cfgDefault 0 createRuntime
      (List.replicate 6 (some "same"))).2 ≠ 1 := by
  have hk : resolveStableCount subDefault cfgDefault = 6 := by
    simp [resolveStableCount, subDefault, cfgDefault, DEFAULT_STABLE_COUNT]
  refine ⟨hk, ?_⟩
  have h := pollRun_start_count (fun s => s) subDefault cfgDefault 0 "same" (by decide) 6
    createRuntime rfl
  rw [h, hk]
  norm_num

/-- C1, witness: seven identical polls at threshold 6 fire exactly one
notification. -/
theorem claim1_witness :
    ("same" : String) ≠ "" ∧
    (pollRun (fun s => s) subDefault cfgDefault 0 createRuntime
      (List.replicate 7 (some "same"))).2 = 1 := by
  refine ⟨by decide, ?_⟩
  have h := claim1_stable_run_single_event (fun s => s) subDefault cfgDefault 0 "same" 7 (by decide)
  rw [h]
  rw [show resolveStableCount subDefault cfgDefault = 6 from by
    simp [resolveStableCount, subDefault, cfgDefault, DEFAULT_STABLE_COUNT]]
  norm_num

/-- C4: when a successful capture's fingerprint differs from the stored
`lastHash`, the detector stores the new hash and output, resets
`stableTicks` to 0, clears `lastNotifiedHash` and fires nothing on that
tick; after `threshold` further identical captures of the new content,
exactly one (second, distinct) stable event fires — regardless of any
notification recorded for the previous content. -/
theorem claim4_change_rearms :
    ∀ (hash : String → String) (sub : SubscriptionM) (cfg : TmuxWatchConfigM) (now : ℚ)
      (s : WatchRuntimeM) (t h0 : String),
      s.lastHash = some h0 → hash t ≠ h0 → hash t ≠ "" →
      ∃ s', pollStep hash sub cfg now s (some t) = (s', false) ∧
        s'.lastHash = some (hash t) ∧ s'.lastOutput = some t ∧ s'.stableTicks = 0 ∧
        s'.lastNotifiedHash = none ∧
        (pollRun hash sub cfg now s'
          (List.replicate (resolveStableCount sub cfg).toNat (some t))).2 = 1 := by
  intro hash sub cfg now s t h0 hprev hne hnz
  have hk := one_le_resolveStableCount sub cfg
  have hsame : sameStoredHash s.lastHash (hash t) = false := by
    rw [hprev]
    simp [sameStoredHash, Ne.symm hne]
  refine ⟨_, pollStep_reset_eq hash sub cfg now s t hsame, rfl, rfl, rfl, rfl, ?_⟩
  rw [pollRun_armed_count hash sub cfg now t _ _ (by simp) hnz (by simp), if_pos]
  constructor
  · simp
  · omega

/-- A runtime that has already notified for the content hashing to
`"old"`. -/
def s0C4 : WatchRuntimeM :=
  { running := false, stableTicks := 9, lastHash := some "old",
    lastOutput := some "old-text", lastNotifiedHash := some "old" }

/-- C4, witness: a runtime that already notified for hash `"old"`
re-arms on capturing `"new"` and fires exactly one event after 6
further identical captures. -/
theorem claim4_witness :
    (pollStep (fun s => s) subDefault cfgDefault 0 s0C4 (some "new")).2 = false ∧
    (pollStep (fun s => s) subDefault cfgDefault 0 s0C4 (some "new")).1.lastNotifiedHash = none ∧
    (pollRun (fun s => s) subDefault cfgDefault 0
      (pollStep (fun s => s) subDefault cfgDefault 0 s0C4 (some "new")).1
      (List.replicate 6 (some "new"))).2 = 1 := by
  obtain ⟨s', heq, h1, h2, h3, h4, h5⟩ :=
    claim4_change_rearms (fun s => s) subDefault cfgDefault 0 s0C4 "new" "old" rfl
      (by decide) (by decide)
  have hk : (resolveStableCount subDefault cfgDefault).toNat = 6 := by
    simp [resolveStableCount, subDefault, cfgDefault, DEFAULT_STABLE_COUNT]
  rw [hk] at h5
  rw [heq]
  exact ⟨rfl, h4, h5⟩

/-- C5: a failed capture sets `stableTicks` to 0 and leaves `lastHash`,
`lastOutput`, `lastNotifiedHash` (and all other fields) unchanged, fires
no event, and polling continues; afterwards no stable event can fire
within fewer than `stableCount` polls, whatever they capture. -/
theorem claim5_failure_resets_only_ticks :
    ∀ (hash : String → String) (sub : SubscriptionM) (cfg : TmuxWatchConfigM) (now : ℚ)
      (s : WatchRuntimeM),
      pollStep hash sub cfg now s none = ({ s with stableTicks := 0, running := false }, false) ∧
      (∀ outs : List (Option String), (outs.length : ℤ) < resolveStableCount sub cfg →
        (pollRun hash sub cfg now { s with stableTicks := 0, running := false } outs).2 = 0) := by
  intro hash sub cfg now s
  refine ⟨rfl, ?_⟩
  intro outs hlen
  apply pollRun_short_no_event
  simpa using hlen

/-- C5, witness: after a failure reset, five arbitrary polls (including
another failure and content changes) fire no event at threshold 6. -/
theorem claim5_witness :
    ((([some "a", some "a", none, some "b", some "b"] : List (Option String)).length : ℤ) <
      resolveStableCount subDefault cfgDefault) ∧
    (pollRun (fun s => s) subDefault cfgDefault 0
      { s0C4 with stableTicks := 0, running := false }
      [some "a", some "a", none, some "b", some "b"]).2 = 0 := by
  have hlen : ((([some "a", some "a", none, some "b", some "b"] : List (Option String)).length : ℤ) <
      resolveStableCount subDefault cfgDefault) := by
    simp [resolveStableCount, subDefault, cfgDefault, DEFAULT_STABLE_COUNT]
  exact ⟨hlen,
    (claim5_failure_resets_only_ticks (fun s => s) subDefault cfgDefault 0 s0C4).2 _ hlen⟩

/-- An entry the `findLatestExternalTarget` fold accepts as a candidate:
it has a snapshot, on an external channel, whose pipe-joined key differs
from the excluded key. -/
def entryIsCandidate (excludeKey : String) (e : SessionEntryM) : Bool :=
  match extractTargetSnapshot e with
  | some snap => !isInternalLastChannel (some snap.channel) && !(snapshotKey snap == excludeKey)
  | none => false

/-- The fold returns nothing exactly when it started with nothing and no
entry is a candidate. -/
theorem findLatestExternalAux_eq_none_iff (key : String) :
    ∀ (l : List SessionEntryM) (b : Option (ℚ × TargetSnapshotM)),
      findLatestExternalAux key l b = none ↔
        b = none ∧ ∀ e ∈ l, entryIsCandidate key e = false := by
  intro l
  induction l with
  | nil => intro b; simp [findLatestExternalAux]
  | cons e rest ih =>
      intro b
      cases hsnap : extractTargetSnapshot e with
      | none =>
          rw [show findLatestExternalAux key (e :: rest) b = findLatestExternalAux key rest b from
            by simp [findLatestExternalAux, hsnap]]
          rw [ih]
          simp [entryIsCandidate, hsnap]
      | some snap =>
          by_cases hint : isInternalLastChannel (some snap.channel) = true
          · rw [show findLatestExternalAux key (e :: rest) b = findLatestExternalAux key rest b from
              by simp [findLatestExternalAux, hsnap, hint]]
            rw [ih]
            simp [entryIsCandidate, hsnap, hint]
          · by_cases hkey : (snapshotKey snap == key) = true
            · rw [show findLatestExternalAux key (e :: rest) b = findLatestExternalAux key rest b from
                by simp [findLatestExternalAux, hsnap, hint, hkey]]
              rw [ih]
              simp [entryIsCandidate, hsnap, hint, hkey]
            · have hcand : entryIsCandidate key e = true := by
                simp [entryIsCandidate, hsnap, hint, hkey]
              cases b with
              | none =>
                  rw [show findLatestExternalAux key (e :: rest) none =
                      findLatestExternalAux key rest (some (entryUpdatedAt e, snap)) from
                    by simp [findLatestExternalAux, hsnap, hint, hkey]]
                  rw [ih]
                  simp [hcand]
              | some p =>
                  obtain ⟨bu, bt⟩ := p
                  by_cases hlt : bu < entryUpdatedAt e
                  · rw [show findLatestExternalAux key (e :: rest) (some (bu, bt)) =
                        findLatestExternalAux key rest (some (entryUpdatedAt e, snap)) from
                      by simp [findLatestExternalAux, hsnap, hint, hkey, hlt]]
                    rw [ih]
                    simp [hcand]
                  · rw [show findLatestExternalAux key (e :: rest) (some (bu, bt)) =
                        findLatestExternalAux key rest (some (bu, bt)) from
                      by simp [findLatestExternalAux, hsnap, hint, hkey, hlt]]
                    rw [ih]
                    simp [hcand]

/-- A produced best entry comes from some candidate entry of the list
(or was the initial best). -/
theorem findLatestExternalAux_some_origin (key : String) :
    ∀ (l : List SessionEntryM) (b : Option (ℚ × TargetSnapshotM)) (u : ℚ) (f : TargetSnapshotM),
      findLatestExternalAux key l b = some (u, f) →
      (∃ e ∈ l, entryIsCandidate key e = true ∧ extractTargetSnapshot e = some f ∧
        entryUpdatedAt e = u) ∨ b = some (u, f) := by
  intro l
  induction l with
  | nil => intro b u f h; exact Or.inr h
  | cons e rest ih =>
      intro b u f h
      cases hsnap : extractTargetSnapshot e with
      | none =>
          rw [show findLatestExternalAux key (e :: rest) b = findLatestExternalAux key rest b from
            by simp [findLatestExternalAux, hsnap]] at h
          rcases ih b u f h with ⟨e', he', hc, hs, hu⟩ | hb
          · exact Or.inl ⟨e', List.mem_cons_of_mem e he', hc, hs, hu⟩
          · exact Or.inr hb
      | some snap =>
          by_cases hint : isInternalLastChannel (some snap.channel) = true
          · rw [show findLatestExternalAux key (e :: rest) b = findLatestExternalAux key rest b from
              by simp [findLatestExternalAux, hsnap, hint]] at h
            rcases ih b u f h with ⟨e', he', hc, hs, hu⟩ | hb
            · exact Or.inl ⟨e', List.mem_cons_of_mem e he', hc, hs, hu⟩
            · exact Or.inr hb
          · by_cases hkey : (snapshotKey snap == key) = true
            · rw [show findLatestExternalAux key (e :: rest) b =
                  findLatestExternalAux key rest b from
                by simp [findLatestExternalAux, hsnap, hint, hkey]] at h
              rcases ih b u f h with ⟨e', he', hc, hs, hu⟩ | hb
              · exact Or.inl ⟨e', List.mem_cons_of_mem e he', hc, hs, hu⟩
              · exact Or.inr hb
            · have hcand : entryIsCandidate key e = true := by
                simp [entryIsCandidate, hsnap, hint, hkey]
              cases b with
              | none =>
                  rw [show findLatestExternalAux key (e :: rest) none =
                      findLatestExternalAux key rest (some (entryUpdatedAt e, snap)) from
                    by simp [findLatestExternalAux, hsnap, hint, hkey]] at h
                  rcases ih _ u f h with ⟨e', he', hc, hs, hu⟩ | hb
                  · exact Or.inl ⟨e', List.mem_cons_of_mem e he', hc, hs, hu⟩
                  · obtain ⟨h1, h2⟩ := Prod.mk.injEq .. ▸ (Option.some_inj.1 hb)
                    exact Or.inl ⟨e, List.mem_cons_self e rest, hcand, h2 ▸ hsnap, h1⟩
              | some p =>
                  obtain ⟨bu, bt⟩ := p
                  by_cases hlt : bu < entryUpdatedAt e
                  · rw [show findLatestExternalAux key (e :: rest) (some (bu, bt)) =
                        findLatestExternalAux key rest (some (entryUpdatedAt e, snap)) from
                      by simp [findLatestExternalAux, hsnap, hint, hkey, hlt]] at h
                    rcases ih _ u f h with ⟨e', he', hc, hs, hu⟩ | hb
                    · exact Or.inl ⟨e', List.mem_cons_of_mem e he', hc, hs, hu⟩
                    · obtain ⟨h1, h2⟩ := Prod.mk.injEq .. ▸ (Option.some_inj.1 hb)
                      exact Or.inl ⟨e, List.mem_cons_self e rest, hcand, h2 ▸ hsnap, h1⟩
                  · rw [show findLatestExternalAux key (e :: rest) (some (bu, bt)) =
                        findLatestExternalAux key rest (some (bu, bt)) from
                      by simp [findLatestExternalAux, hsnap, hint, hkey, hlt]] at h
                    rcases ih _ u f h with ⟨e', he', hc, hs, hu⟩ | hb
                    · exact Or.inl ⟨e', List.mem_cons_of_mem e he', hc, hs, hu⟩
                    · exact Or.inr hb

/-- The produced best timestamp dominates every candidate's `updatedAt`
and the initial best. -/
theorem findLatestExternalAux_some_bound (key : String) :
    ∀ (l : List SessionEntryM) (b : Option (ℚ × TargetSnapshotM)) (u : ℚ) (f : TargetSnapshotM),
      findLatestExternalAux key l b = some (u, f) →
      (∀ e ∈ l, entryIsCandidate key e = true → entryUpdatedAt e ≤ u) ∧
      (∀ bu bt, b = some (bu, bt) → bu ≤ u) := by
  intro l
  induction l with
  | nil =>
      intro b u f h
      refine ⟨by simp, ?_⟩
      intro bu bt hb
      rw [hb] at h
      obtain ⟨h1, _⟩ := Prod.mk.injEq .. ▸ (Option.some_inj.1 h)
      exact le_of_eq h1
  | cons e rest ih =>
      intro b u f h
      cases hsnap : extractTargetSnapshot e with
      | none =>
          rw [show findLatestExternalAux key (e :: rest) b = findLatestExternalAux key rest b from
            by simp [findLatestExternalAux, hsnap]] at h
          obtain ⟨hrest, hbb⟩ := ih b u f h
          refine ⟨?_, hbb⟩
          intro e' he' hc
          rcases List.mem_cons.1 he' with he | he
          · rw [he] at hc
            simp [entryIsCandidate, hsnap] at hc
          · exact hrest e' he hc
      | some snap =>
          by_cases hint : isInternalLastChannel (some snap.channel) = true
          · rw [show findLatestExternalAux key (e :: rest) b = findLatestExternalAux key rest b from
              by simp [findLatestExternalAux, hsnap, hint]] at h
            obtain ⟨hrest, hbb⟩ := ih b u f h
            refine ⟨?_, hbb⟩
            intro e' he' hc
            rcases List.mem_cons.1 he' with he | he
            · rw [he] at hc
              simp [entryIsCandidate, hsnap, hint] at hc
            · exact hrest e' he hc
          · by_cases hkey : (snapshotKey snap == key) = true
            · rw [show findLatestExternalAux key (e :: rest) b =
                  findLatestExternalAux key rest b from
                by simp [findLatestExternalAux, hsnap, hint, hkey]] at h
              obtain ⟨hrest, hbb⟩ := ih b u f h
              refine ⟨?_, hbb⟩
              intro e' he' hc
              rcases List.mem_cons.1 he' with he | he
              · rw [he] at hc
                simp [entryIsCandidate, hsnap, hint, hkey] at hc
              · exact hrest e' he hc
            · cases b with
              | none =>
                  rw [show findLatestExternalAux key (e :: rest) none =
                      findLatestExternalAux key rest (some (entryUpdatedAt e, snap)) from
                    by simp [findLatestExternalAux, hsnap, hint, hkey]] at h
                  obtain ⟨hrest, hbb⟩ := ih _ u f h
                  have hue : entryUpdatedAt e ≤ u := hbb _ _ rfl
                  refine ⟨?_, by simp⟩
                  intro e' he' hc
                  rcases List.mem_cons.1 he' with he | he
                  · rw [he]; exact hue
                  · exact hrest e' he hc
              | some p =>
                  obtain ⟨bu, bt⟩ := p
                  by_cases hlt : bu < entryUpdatedAt e
                  · rw [show findLatestExternalAux key (e :: rest) (some (bu, bt)) =
                        findLatestExternalAux key rest (some (entryUpdatedAt e, snap)) from
                      by simp [findLatestExternalAux, hsnap, hint, hkey, hlt]] at h
                    obtain ⟨hrest, hbb⟩ := ih _ u f h
                    have hue : entryUpdatedAt e ≤ u := hbb _ _ rfl
                    refine ⟨?_, ?_⟩
                    · intro e' he' hc
                      rcases List.mem_cons.1 he' with he | he
                      · rw [he]; exact hue
                      · exact hrest e' he hc
                    · intro bu' bt' hb
                      obtain ⟨h1, _⟩ := Prod.mk.injEq .. ▸ (Option.some_inj.1 hb)
                      calc bu' = bu := h1.symm
                        _ ≤ entryUpdatedAt e := le_of_lt hlt
                        _ ≤ u := hue
                  · rw [show findLatestExternalAux key (e :: rest) (some (bu, bt)) =
                        findLatestExternalAux key rest (some (bu, bt)) from
                      by simp [findLatestExternalAux, hsnap, hint, hkey, hlt]] at h
                    obtain ⟨hrest, hbb⟩ := ih _ u f h
                    have hbu : bu ≤ u := hbb _ _ rfl
                    refine ⟨?_, ?_⟩
                    · intro e' he' hc
                      rcases List.mem_cons.1 he' with he | he
                      · rw [he]
                        calc entryUpdatedAt e ≤ bu := not_lt.1 hlt
                          _ ≤ u := hbu
                      · exact hrest e' he hc
                    · intro bu' bt' hb
                      obtain ⟨h1, _⟩ := Prod.mk.injEq .. ▸ (Option.some_inj.1 hb)
                      exact h1 ▸ hbu

/-- C6 (amended): when the looked-up session's snapshot is on an
internal channel, resolution returns exactly one target; if no other
store entry is an external candidate (external channel, pipe-joined key
different from the internal destination's key) the internal destination
itself is returned tagged `last`; and whenever the candidate scan
produces a best entry, that external candidate — drawn from the store,
external, distinct key, with `updatedAt` at least every other
candidate's — is returned alone, tagged `last-fallback`.  An external
candidate exists exactly when the scan produces one. -/
theorem claim6_internal_fallback :
    ∀ (store : SessionStore) (sessionKey : String) (entry : SessionEntryM)
      (p : TargetSnapshotM),
      storeLookup store sessionKey = some entry →
      extractTargetSnapshot entry = some p →
      isInternalLastChannel (some p.channel) = true →
      (resolveLastTargetsFromStore store sessionKey).length = 1 ∧
      ((∀ e ∈ storeValues store, entryIsCandidate (snapshotKey p) e = false) →
        resolveLastTargetsFromStore store sessionKey = [toResolvedTarget p TargetSource.last]) ∧
      (∀ u f, findLatestExternalAux (snapshotKey p) (storeValues store) none = some (u, f) →
        resolveLastTargetsFromStore store sessionKey =
          [toResolvedTarget f TargetSource.lastFallback] ∧
        isInternalLastChannel (some f.channel) = false ∧
        snapshotKey f ≠ snapshotKey p ∧
        (∃ e ∈ storeValues store, extractTargetSnapshot e = some f ∧ entryUpdatedAt e = u) ∧
        (∀ e ∈ storeValues store, entryIsCandidate (snapshotKey p) e = true →
          entryUpdatedAt e ≤ u)) ∧
      ((∃ e ∈ storeValues store, entryIsCandidate (snapshotKey p) e = true) →
        ∃ u f, findLatestExternalAux (snapshotKey p) (storeValues store) none = some (u, f)) := by
  intro store sessionKey entry p hlook hsnap hint
  have hres : resolveLastTargetsFromStore store sessionKey =
      match findLatestExternalTarget (storeValues store) p with
      | some fallback => [toResolvedTarget fallback TargetSource.lastFallback]
      | none => [toResolvedTarget p TargetSource.last] := by
    simp [resolveLastTargetsFromStore, hlook, hsnap, hint]
  refine ⟨?_, ?_, ?_, ?_⟩
  · rw [hres]
    cases findLatestExternalTarget (storeValues store) p <;> simp
  · intro hno
    have haux : findLatestExternalAux (snapshotKey p) (storeValues store) none = none :=
      (findLatestExternalAux_eq_none_iff (snapshotKey p) (storeValues store) none).2 ⟨rfl, hno⟩
    rw [hres]
    simp [findLatestExternalTarget, haux]
  · intro u f haux
    have hfe : findLatestExternalTarget (storeValues store) p = some f := by
      simp [findLatestExternalTarget, haux]
    rcases findLatestExternalAux_some_origin (snapshotKey p) (storeValues store) none u f haux
      with ⟨e, he, hc, hs, hu⟩ | hb
    · have hbound := (findLatestExternalAux_some_bound (snapshotKey p)
        (storeValues store) none u f haux).1
      have hprops : isInternalLastChannel (some f.channel) = false ∧
          snapshotKey f ≠ snapshotKey p := by
        have := hc
        rw [entryIsCandidate, hs] at this
        simp only [Bool.and_eq_true, Bool.not_eq_true'] at this
        obtain ⟨h1', h2'⟩ := this
        exact ⟨h1', by simpa using h2'⟩
      exact ⟨by rw [hres, hfe], hprops.1, hprops.2, ⟨e, he, hs, hu⟩, hbound⟩
    · cases hb
  · intro ⟨e, he, hc⟩
    cases haux : findLatestExternalAux (snapshotKey p) (storeValues store) none with
    | some pr =>
        obtain ⟨u', f'⟩ := pr
        exact ⟨u', f', rfl⟩
    | none =>
        have := ((findLatestExternalAux_eq_none_iff (snapshotKey p)
          (storeValues store) none).1 haux).2 e he
        rw [hc] at this
        cases this

/-- Session entry whose last destination is the internal `webchat`
channel with address `"x|y"`. -/
def cexInternalEntry : SessionEntryM :=
  { deliveryContext := some { channel := some "webchat", toAddr := some "x|y" } }

/-- Session entry on the external channel `"webchat|x"` whose
pipe-joined key collides with `cexInternalEntry`'s. -/
def cexExternalEntry : SessionEntryM :=
  { deliveryContext := some { channel := some "webchat|x", toAddr := some "y" },
    updatedAt := some 100 }

/-- Store holding the internal destination and one external entry with
a colliding pipe-joined key. -/
def cexStore : SessionStore := [("sess", cexInternalEntry), ("other", cexExternalEntry)]

/-- Snapshot of `cexInternalEntry`. -/
def cexIntSnap : TargetSnapshotM := { channel := "webchat", target := "x|y" }

/-- Snapshot of `cexExternalEntry`. -/
def cexExtSnap : TargetSnapshotM := { channel := "webchat|x", target := "y" }

/-- C6, counterexample: `cexStore` holds an external-channel entry
(`channel "webchat|x"`, address `"y"`, `updatedAt 100`), yet resolution
for the internal destination (`webchat`, `"x|y"`) returns the internal
destination tagged `last` rather than that external destination — the
exclusion compares pipe-joined keys, and `webchat|x|y||` collides. -/
theorem claim6_counterexample :
    isInternalLastChannel (some cexExtSnap.channel) = false ∧
    extractTargetSnapshot cexExternalEntry = some cexExtSnap ∧
    cexExternalEntry ∈ storeValues cexStore ∧
    resolveLastTargetsFromStore cexStore "sess" =
      [toResolvedTarget cexIntSnap TargetSource.last] ∧
    resolveLastTargetsFromStore cexStore "sess" ≠
      [toResolvedTarget cexExtSnap TargetSource.lastFallback] := by
  refine ⟨by decide, by decide, by decide, by decide, by decide⟩

/-- Witness store: session whose last destination is internal. -/
def wEntryMain : SessionEntryM :=
  { updatedAt := some 5,
    deliveryContext := some { channel := some "webchat", toAddr := some "webchat:client" } }

/-- Witness store: older external destination. -/
def wEntryGewe : SessionEntryM :=
  { updatedAt := some 3,
    deliveryContext := some { channel := some "gewe-openclaw", toAddr := some "gewe:wxid" } }

/-- Witness store: newest external destination. -/
def wEntryTg : SessionEntryM :=
  { updatedAt := some 4,
    deliveryContext := some { channel := some "telegram", toAddr := some "123" } }

/-- Witness store with an internal last destination and two external
alternatives. -/
def wStore : SessionStore :=
  [("agent:main:main", wEntryMain), ("agent:main:gewe", wEntryGewe),
   ("agent:main:tg", wEntryTg)]

/-- Snapshot of `wEntryMain`. -/
def wMainSnap : TargetSnapshotM := { channel := "webchat", target := "webchat:client" }

/-- Snapshot of `wEntryTg`. -/
def wTgSnap : TargetSnapshotM := { channel := "telegram", target := "123" }

/-- C6, witness: with an internal last destination and external
alternatives updated at 3 and 4, resolution returns the `updatedAt 4`
telegram destination tagged `last-fallback`. -/
theorem claim6_witness :
    resolveLastTargetsFromStore wStore "agent:main:main" =
      [toResolvedTarget wTgSnap TargetSource.lastFallback] ∧
    isInternalLastChannel (some wTgSnap.channel) = false := by
  have h := (claim6_internal_fallback wStore "agent:main:main" wEntryMain wMainSnap
    (by decide) (by decide) (by decide)).2.2.1 4 wTgSnap (by decide)
  exact ⟨h.1, h.2.1⟩

/-- Deduplication never reorders: its output is a sublist of its
input. -/
theorem dedupeAux_sublist : ∀ (ts : List ResolvedTargetM) (seen : List String),
    List.Sublist (dedupeAux ts seen) ts := by
  intro ts
  induction ts with
  | nil => intro seen; simp [dedupeAux]
  | cons t rest ih =>
      intro seen
      by_cases h : seen.contains (resolvedKey t)
      · simp only [dedupeAux, h, if_true]
        exact List.Sublist.cons t (ih seen)
      · simp only [dedupeAux, h, if_false]
        exact List.Sublist.cons₂ t (ih _)

/-- The seen-set loop of `dedupeTargets` agrees with the
first-occurrence-per-key filter formulated over the accumulated
output. -/
theorem dedupeAux_foldl : ∀ (ts : List ResolvedTargetM) (acc : List ResolvedTargetM)
    (seen : List String),
    (∀ k, seen.contains k = acc.any (fun u => resolvedKey u == k)) →
    acc ++ dedupeAux ts seen =
      ts.foldl (fun acc t =>
        if acc.any (fun u => resolvedKey u == resolvedKey t) then acc else acc ++ [t]) acc := by
  intro ts
  induction ts with
  | nil => intro acc seen _; simp [dedupeAux]
  | cons t rest ih =>
      intro acc seen hinv
      by_cases h : seen.contains (resolvedKey t) = true
      · have hacc : acc.any (fun u => resolvedKey u == resolvedKey t) = true := by
          rw [← hinv]; exact h
        simp only [dedupeAux, h, if_true, List.foldl_cons, hacc]
        exact ih acc seen hinv
      · have hacc : acc.any (fun u => resolvedKey u == resolvedKey t) = false := by
          rw [← hinv]; exact Bool.not_eq_true _ ▸ (by simpa using h)
        have hb : seen.contains (resolvedKey t) = false := by simpa using h
        simp only [dedupeAux, hb, Bool.false_eq_true, reduceIte, List.foldl_cons, hacc]
        rw [← ih (acc ++ [t]) (resolvedKey t :: seen) ?_]
        · simp
        · intro k
          simp only [List.contains_cons, List.any_append, List.any_cons, List.any_nil,
            Bool.or_false, hinv, Bool.false_or]
          have hcomm : (k == resolvedKey t) = (resolvedKey t == k) := by
            simp [beq_iff_eq, eq_comm]
          rw [hcomm, Bool.or_comm]

/-- C7 (amended): `dedupeTargets` keeps exactly the first occurrence of
each pipe-joined key `channel|address|accountId|threadId` (fields
containing `"|"` can make distinct tuples collide), preserving
first-seen order as a sublist of its input; under mode `targets+last`
resolution deduplicates the explicit list concatenated before the
last-known list, so explicit entries win ties; in particular explicit
`[A, B]` plus a last-known target sharing `A`'s key resolves to exactly
`[A, B]`. -/
theorem claim7_dedupe_order :
    (∀ ts, dedupeTargets ts = keepFirstByKey ts) ∧
    (∀ ts, List.Sublist (dedupeTargets ts) ts) ∧
    (∀ A B L : ResolvedTargetM, resolvedKey L = resolvedKey A →
      resolvedKey A ≠ resolvedKey B → dedupeTargets ([A, B] ++ [L]) = [A, B]) ∧
    (∀ sub cfg lastTargets, resolveNotifyMode sub cfg = NotifyModeT.targetsLast →
      resolveNotifyTargets sub cfg lastTargets =
        dedupeTargets (explicitResolved sub cfg ++ lastTargets)) := by
  refine ⟨?_, ?_, ?_, ?_⟩
  · intro ts
    rw [dedupeTargets, keepFirstByKey, ← dedupeAux_foldl ts [] [] (by intro k; rfl)]
    rfl
  · intro ts
    exact dedupeAux_sublist ts []
  · intro A B L hLA hAB
    have hab : (resolvedKey A == resolvedKey B) = false := by
      simpa using hAB
    have hba : (resolvedKey B == resolvedKey A) = false := by
      simp [beq_iff_eq]
      exact fun h => hAB h.symm
    have hla : (resolvedKey L == resolvedKey A) = true := by
      simp [beq_iff_eq, hLA]
    simp [dedupeTargets, dedupeAux, List.contains_cons, hab, hba, hla, hLA]
    exact fun h => hAB h.symm
  · intro sub cfg lastTargets hmode
    rw [resolveNotifyTargets, hmode]
    simp

/-- Explicit notify target with a pipe inside its channel. -/
def tA : NotifyTargetC := { channel := "a|b", target := "c" }

/-- Explicit notify target tuple-distinct from `tA` but with the same
pipe-joined key. -/
def tB : NotifyTargetC := { channel := "a", target := "b|c" }

/-- Subscription configured with explicit targets `[tA, tB]`. -/
def subC7 : SubscriptionM :=
  { id := "s", target := "w", notifyMode := some NotifyModeT.targets,
    notifyTargets := some [tA, tB] }

/-- C7, counterexample: the explicit targets `("a|b", "c")` and
`("a", "b|c")` are distinct as (channel, address, accountId, threadId)
tuples, so tuple-based deduplication keeps both, but `dedupeTargets`
joins the fields with `"|"` — both produce the key `a|b|c||` — and the
code drops the second. -/
theorem claim7_counterexample :
    resolveNotifyTargets subC7 cfgDefault [] ≠
      resolveNotifyTargetsClaimed subC7 cfgDefault [] ∧
    (resolveNotifyTargets subC7 cfgDefault []).length = 1 ∧
    (resolveNotifyTargetsClaimed subC7 cfgDefault []).length = 2 := by
  refine ⟨by decide, by decide, by decide⟩

/-- Explicit resolved target A. -/
def rA : ResolvedTargetM := { channel := "telegram", target := "1", source := TargetSource.targets }

/-- Explicit resolved target B with a key different from A's. -/
def rB : ResolvedTargetM := { channel := "slack", target := "2", source := TargetSource.targets }

/-- Last-known resolved target sharing A's key. -/
def rL : ResolvedTargetM := { channel := "telegram", target := "1", source := TargetSource.last }

/-- C7, witness: explicit `[rA, rB]` followed by a last-known duplicate
of `rA` deduplicates to exactly `[rA, rB]`. -/
theorem claim7_witness :
    resolvedKey rL = resolvedKey rA ∧ resolvedKey rA ≠ resolvedKey rB ∧
    dedupeTargets ([rA, rB] ++ [rL]) = [rA, rB] := by
  refine ⟨by decide, by decide, claim7_dedupe_order.2.2.1 rA rB rL (by decide) (by decide)⟩
